import Mathlib

/-!
Verification development for the Smartsheet attachment-sync core
(`src/attachment_sync.py`, class `AttachmentSyncer`).

The Python code is shallowly embedded: cell values become an inductive
type, Python `dict` becomes an association list with in-place update
(matching CPython insertion-order semantics), network calls become
oracle functions supplied in an `Env` record, exceptions become
`Option`/`Except`, and the mutable target sheet (which uploads extend)
becomes an explicit `TgtWorld` value threaded through runs.
-/

namespace AttachmentSync

/-! ## Cell values and match-key extraction (`_extract_match_key`) -/

/-- Python `float` parse results are modelled exactly as decimal values
`mant * 10 ^ exp` (no binary rounding; NaN/inf out of model). -/
structure DecValue where
  mant : Int
  exp : Int
deriving DecidableEq

/-- The rational number a `DecValue` denotes. -/
def DecValue.toRat (v : DecValue) : ℚ := (v.mant : ℚ) * (10 : ℚ) ^ v.exp

/-- Python `int(x)` on an exact decimal value: truncation toward zero
(`Int.tdiv` is T-division). -/
def truncDec (v : DecValue) : Int :=
  if 0 ≤ v.exp then v.mant * 10 ^ v.exp.toNat
  else v.mant.tdiv (10 ^ (-v.exp).toNat)

/-- Python `int(x)` on a rational: truncation toward zero. -/
def truncQ (q : ℚ) : Int := q.num.tdiv (q.den : Int)

/-- A raw Smartsheet cell value: Python `None`, `int`, `float`
(modelled as a rational) or `str`. -/
inductive CellValue where
  | vNone : CellValue
  | vInt : Int → CellValue
  | vFloat : ℚ → CellValue
  | vStr : String → CellValue
deriving DecidableEq

/-- The whitespace characters removed by Python `str.strip()`. -/
def isPySpace (c : Char) : Bool :=
  c == ' ' || c == '\t' || c == '\n' || c == '\r' || c == '\x0b' || c == '\x0c'

/-- Python `str.strip()` on a character list. -/
def pyStrip (l : List Char) : List Char :=
  ((l.dropWhile isPySpace).reverse.dropWhile isPySpace).reverse

/-- Digits to the natural number they denote, most significant first. -/
def digitsToNat (l : List Char) : ℕ :=
  l.foldl (fun a c => a * 10 + (c.toNat - 48)) 0

/-- Strip one optional leading sign, returning the sign as `±1`. -/
def splitSign : List Char → Int × List Char
  | '+' :: r => (1, r)
  | '-' :: r => (-1, r)
  | r => (1, r)

/-- Parse the optional exponent tail of a Python float literal
(empty tail means exponent 0). -/
def parseExpTail (cs : List Char) : Option Int :=
  match cs with
  | [] => some 0
  | c :: r =>
    if c = 'e' ∨ c = 'E' then
      let (es, r1) := splitSign r
      let ed := r1.takeWhile Char.isDigit
      let r2 := r1.dropWhile Char.isDigit
      if ed = [] ∨ r2 ≠ [] then none
      else some (es * (digitsToNat ed : Int))
    else none

/-- Model of Python `float(s)` on an already-stripped string: decimal
literals `[±] digits [. digits] [(e|E) [±] digits]` (also `.5`, `5.`);
`none` where Python raises `ValueError`. -/
def parseFloat? (cs : List Char) : Option DecValue :=
  let (sg, r0) := splitSign cs
  let ip := r0.takeWhile Char.isDigit
  let r1 := r0.dropWhile Char.isDigit
  match r1 with
  | '.' :: r2 =>
    let fp := r2.takeWhile Char.isDigit
    let r3 := r2.dropWhile Char.isDigit
    if ip = [] ∧ fp = [] then none
    else (parseExpTail r3).map (fun e =>
      ⟨sg * (digitsToNat (ip ++ fp) : Int), e - fp.length⟩)
  | r =>
    if ip = [] then none
    else (parseExpTail r).map (fun e => ⟨sg * (digitsToNat ip : Int), e⟩)

/-- Result of `_extract_match_key`: the optional integer key, plus
whether the `except (ValueError, TypeError)` branch logged a warning. -/
structure ExtractResult where
  key : Option Int
  warned : Bool
deriving DecidableEq

/-- `AttachmentSyncer._extract_match_key` (attachment_sync.py:66-91):
`None → None`; numeric → `int(value)`; string → strip, and when
non-empty `int(float(cleaned))`, with a logged warning (and `None`)
when parsing fails; empty/whitespace-only string → `None`, no warning. -/
def extract_match_key : CellValue → ExtractResult
  | .vNone => ⟨none, false⟩
  | .vInt n => ⟨some n, false⟩
  | .vFloat q => ⟨some (truncQ q), false⟩
  | .vStr s =>
    let cleaned := pyStrip s.toList
    if cleaned = [] then ⟨none, false⟩
    else
      match parseFloat? cleaned with
      | some v => ⟨some (truncDec v), false⟩
      | none => ⟨none, true⟩

/-- `int()` on a nonnegative rational is the floor, on a negative one the
ceiling: truncation toward zero. -/
theorem truncQ_toward_zero (q : ℚ) : truncQ q = if 0 ≤ q then ⌊q⌋ else ⌈q⌉ := by
  by_cases h : 0 ≤ q
  · rw [if_pos h, truncQ, Rat.floor_def,
      Int.tdiv_eq_ediv (Rat.num_nonneg.mpr h) (Int.natCast_nonneg _)]
  · rw [if_neg h]
    have hq : q < 0 := lt_of_not_ge h
    have hn : 0 ≤ -q.num := by
      have := Rat.num_nonneg.mpr (le_of_lt (neg_pos.mpr hq))
      rwa [Rat.num_neg_eq_neg_num] at this
    have hfloor : ⌊-q⌋ = (-q.num) / (q.den : Int) := by
      rw [Rat.floor_def, Rat.num_neg_eq_neg_num, Rat.den_neg_eq_den]
    have h2 : truncQ q = -((-q.num).tdiv (q.den : Int)) := by
      rw [truncQ, ← Int.neg_tdiv, neg_neg]
    rw [h2, Int.tdiv_eq_ediv hn (Int.natCast_nonneg _), ← hfloor, Int.floor_neg, neg_neg]

/-- `int()` on a parsed decimal value truncates its rational value
toward zero. -/
theorem truncDec_toward_zero (v : DecValue) :
    truncDec v = if 0 ≤ v.toRat then ⌊v.toRat⌋ else ⌈v.toRat⌉ := by
  rcases v with ⟨m, e⟩
  by_cases he : 0 ≤ e
  · have hcast : DecValue.toRat ⟨m, e⟩ = ((m * 10 ^ e.toNat : Int) : ℚ) := by
      rw [DecValue.toRat]
      push_cast
      rw [← zpow_natCast (10 : ℚ) e.toNat, Int.toNat_of_nonneg he]
    rw [truncDec, if_pos he, hcast]
    split
    · rw [Int.floor_intCast]
    · rw [Int.ceil_intCast]
  · have he' : e < 0 := lt_of_not_ge he
    have hcast : DecValue.toRat ⟨m, e⟩ = (m : ℚ) / ((10 ^ (-e).toNat : ℕ) : ℚ) := by
      rw [DecValue.toRat, div_eq_mul_inv]
      congr 1
      push_cast
      rw [← zpow_natCast (10 : ℚ) (-e).toNat, Int.toNat_of_nonneg (by omega : (0:Int) ≤ -e),
        ← zpow_neg, neg_neg]
    rw [truncDec, if_neg he, hcast]
    by_cases hm : 0 ≤ m
    · have hq : 0 ≤ (m : ℚ) / ((10 ^ (-e).toNat : ℕ) : ℚ) := by positivity
      rw [if_pos hq, Rat.floor_intCast_div_natCast,
        Int.tdiv_eq_ediv hm (by positivity)]
      push_cast
      ring_nf
    · have hm' : m < 0 := lt_of_not_ge hm
      have hq : ¬ (0 ≤ (m : ℚ) / ((10 ^ (-e).toNat : ℕ) : ℚ)) := by
        rw [not_le]
        apply div_neg_of_neg_of_pos
        · exact_mod_cast hm'
        · positivity
      rw [if_neg hq]
      have hceil : (⌈(m : ℚ) / ((10 ^ (-e).toNat : ℕ) : ℚ)⌉ : Int)
          = -((-m) / ((10 ^ (-e).toNat : ℕ) : Int)) := by
        rw [← Rat.floor_intCast_div_natCast (-m) (10 ^ (-e).toNat),
          Int.cast_neg, neg_div, Int.floor_neg, neg_neg]
      rw [hceil, ← Int.tdiv_eq_ediv (by omega) (by positivity), Int.neg_tdiv, neg_neg]
      push_cast
      ring_nf

/-- C5: the key extractor truncates integer and floating-point values
toward zero (`12345.0` yields `12345`); a string is trimmed and, if
non-empty, parsed as a float then truncated toward zero, so `"12345"`,
`"12345.0"` and `"  12345 "` each yield `12345`; an unparsable string
such as `"abc"` yields no key with a warning logged; an empty or
whitespace-only string and an absent value yield no key (no warning,
no exception — the extractor is a total function). -/
theorem extract_match_key_spec :
    (∀ n : Int, extract_match_key (.vInt n) = ⟨some n, false⟩)
    ∧ (∀ q : ℚ, extract_match_key (.vFloat q) = ⟨some (truncQ q), false⟩
        ∧ truncQ q = if 0 ≤ q then ⌊q⌋ else ⌈q⌉)
    ∧ extract_match_key (.vFloat ((12345 : Int) : ℚ)) = ⟨some 12345, false⟩
    ∧ (∀ s : String,
        (pyStrip s.toList = [] → extract_match_key (.vStr s) = ⟨none, false⟩)
        ∧ (∀ v : DecValue, parseFloat? (pyStrip s.toList) = some v →
            pyStrip s.toList ≠ [] →
            extract_match_key (.vStr s) = ⟨some (truncDec v), false⟩
            ∧ truncDec v = if 0 ≤ v.toRat then ⌊v.toRat⌋ else ⌈v.toRat⌉)
        ∧ (parseFloat? (pyStrip s.toList) = none → pyStrip s.toList ≠ [] →
            extract_match_key (.vStr s) = ⟨none, true⟩))
    ∧ extract_match_key (.vStr "12345") = ⟨some 12345, false⟩
    ∧ extract_match_key (.vStr "12345.0") = ⟨some 12345, false⟩
    ∧ extract_match_key (.vStr "  12345 ") = ⟨some 12345, false⟩
    ∧ extract_match_key (.vStr "abc") = ⟨none, true⟩
    ∧ extract_match_key (.vStr "") = ⟨none, false⟩
    ∧ extract_match_key (.vStr " \t ") = ⟨none, false⟩
    ∧ extract_match_key .vNone = ⟨none, false⟩ := by
  refine ⟨fun n => rfl, fun q => ⟨rfl, truncQ_toward_zero q⟩, ?_, ?_,
    by decide, by decide, by decide, by decide, by decide, by decide, rfl⟩
  · have h : truncQ ((12345 : ℚ)) = 12345 := by
      rw [truncQ_toward_zero]
      norm_num
    simp [extract_match_key, h]
  · intro s
    refine ⟨fun h => by
      simp only [String.toList] at h
      simp [extract_match_key, String.toList, h], ?_, ?_⟩
    · intro v hp hne
      simp only [String.toList] at hp hne
      exact ⟨by simp [extract_match_key, String.toList, hne, hp], truncDec_toward_zero v⟩
    · intro hp hne
      simp only [String.toList] at hp hne
      simp [extract_match_key, String.toList, hne, hp]

/-- Concrete instantiation of the string branch of
`extract_match_key_spec`, with its hypotheses discharged at `" 7 "`. -/
theorem extract_match_key_spec_witness :
    extract_match_key (.vStr " 7 ") = ⟨some (truncDec ⟨7, 0⟩), false⟩ :=
  ((extract_match_key_spec.2.2.2.1 " 7 ").2.1 ⟨7, 0⟩ (by decide) (by decide)).1

/-! ## Rows and the key→row index (`_build_row_map`) -/

/-- A cell: a column identifier and an untyped scalar value. -/
structure Cell where
  column_id : Int
  value : CellValue
deriving DecidableEq

/-- A row: an opaque identifier and its cells. -/
structure Row where
  id : Int
  cells : List Cell
deriving DecidableEq

/-- Lookup in a Python-`dict`-like association list (`k in d` / `d[k]`). -/
def lookupKV {α : Type} : List (Int × α) → Int → Option α
  | [], _ => none
  | (k', v) :: rest, k => if k' = k then some v else lookupKV rest k

/-- Update in a Python-`dict`-like association list (`d[k] = v`): an
existing key keeps its position, a new key is appended — CPython
insertion-order semantics. -/
def insertKV {α : Type} : List (Int × α) → Int → α → List (Int × α)
  | [], k, v => [(k, v)]
  | (k', v') :: rest, k, v =>
    if k' = k then (k, v) :: rest else (k', v') :: insertKV rest k v

/-- The match key a row derives (attachment_sync.py:105-115): the value
of the first cell whose column id matches, skipped when absent or
`None`, then `_extract_match_key`. -/
def rowKey (row : Row) (match_column_id : Int) : Option Int :=
  match row.cells.find? (fun c => c.column_id == match_column_id) with
  | none => none
  | some c => if c.value = .vNone then none else (extract_match_key c.value).key

/-- One iteration of the `_build_row_map` loop: insert the row under its
key; on collision also record a warning `(key, new row id, old row id)`
(attachment_sync.py:116-121). -/
def build_row_map_step (match_column_id : Int)
    (acc : List (Int × Row) × List (Int × Int × Int)) (row : Row) :
    List (Int × Row) × List (Int × Int × Int) :=
  match rowKey row match_column_id with
  | none => acc
  | some k =>
    match lookupKV acc.1 k with
    | some old => (insertKV acc.1 k row, acc.2 ++ [(k, row.id, old.id)])
    | none => (insertKV acc.1 k row, acc.2)

/-- `AttachmentSyncer._build_row_map` (attachment_sync.py:93-124),
returning the key→row dict together with the duplicate-key warnings it
logged. -/
def build_row_map (rows : List Row) (match_column_id : Int) :
    List (Int × Row) × List (Int × Int × Int) :=
  rows.foldl (build_row_map_step match_column_id) ([], [])

/-- Spec-side reference function: the last row in processing order whose
cell in the match column derives the key `k`. -/
def lastRowWith : List Row → Int → Int → Option Row
  | [], _, _ => none
  | r :: rest, mcid, k =>
    match lastRowWith rest mcid k with
    | some r' => some r'
    | none => if rowKey r mcid = some k then some r else none

theorem lookupKV_insertKV {α : Type} (m : List (Int × α)) (k k' : Int) (v : α) :
    lookupKV (insertKV m k v) k' = if k = k' then some v else lookupKV m k' := by
  induction m with
  | nil => simp [insertKV, lookupKV]
  | cons h t ih =>
    rcases h with ⟨k0, v0⟩
    by_cases h0 : k0 = k
    · subst h0
      simp only [insertKV, if_pos rfl, lookupKV]
      by_cases h1 : k0 = k' <;> simp [h1]
    · simp only [insertKV, if_neg h0, lookupKV]
      by_cases h1 : k0 = k'
      · subst h1
        have : ¬ (k = k0) := fun h => h0 h.symm
        simp [this]
      · simp [h1, ih]

theorem build_fold_lookup (mcid : Int) (rows : List Row) :
    ∀ (acc : List (Int × Row) × List (Int × Int × Int)) (k : Int),
      lookupKV (rows.foldl (build_row_map_step mcid) acc).1 k
        = match lastRowWith rows mcid k with
          | some r => some r
          | none => lookupKV acc.1 k := by
  induction rows with
  | nil => intro acc k; simp [lastRowWith]
  | cons r rest ih =>
    intro acc k
    rw [List.foldl_cons, ih]
    cases hrest : lastRowWith rest mcid k with
    | some r' => simp [lastRowWith, hrest]
    | none =>
      simp only [lastRowWith, hrest]
      cases hk : rowKey r mcid with
      | none =>
        have : rowKey r mcid ≠ some k := by simp [hk]
        simp [build_row_map_step, hk, this]
      | some k0 =>
        by_cases hk0 : k0 = k
        · subst hk0
          simp only [build_row_map_step, hk]
          cases hold : lookupKV acc.1 k0 <;>
            simp [lookupKV_insertKV, hk]
        · have : rowKey r mcid ≠ some k := by simp [hk, hk0]
          simp only [build_row_map_step, hk, this, if_false]
          cases hold : lookupKV acc.1 k0 <;>
            simp [lookupKV_insertKV, hk0]

theorem build_fold_warn_mono (mcid : Int) (rows : List Row) :
    ∀ (acc : List (Int × Row) × List (Int × Int × Int)),
      ∃ ext, (rows.foldl (build_row_map_step mcid) acc).2 = acc.2 ++ ext := by
  induction rows with
  | nil => intro acc; exact ⟨[], by simp⟩
  | cons r rest ih =>
    intro acc
    rw [List.foldl_cons]
    obtain ⟨ext, hext⟩ := ih (build_row_map_step mcid acc r)
    cases hk : rowKey r mcid with
    | none =>
      refine ⟨ext, ?_⟩
      rw [hext]
      simp [build_row_map_step, hk]
    | some k =>
      cases hold : lookupKV acc.1 k with
      | none =>
        refine ⟨ext, ?_⟩
        rw [hext]
        simp [build_row_map_step, hk, hold]
      | some old =>
        refine ⟨(k, r.id, old.id) :: ext, ?_⟩
        rw [hext]
        simp [build_row_map_step, hk, hold]

/-- C6: the row map is last-write-wins — a key present in the map always
resolves to the most-recently-processed row deriving it — and a key
collision logs a warning naming both conflicting row identifiers (the
overwriting row and the row previously holding the key). -/
theorem build_row_map_last_write_wins :
    (∀ (rows : List Row) (mcid k : Int),
      lookupKV (build_row_map rows mcid).1 k = lastRowWith rows mcid k)
    ∧ (∀ (pre : List Row) (r2 : Row) (post : List Row) (r1 : Row) (mcid k : Int),
        rowKey r2 mcid = some k → lastRowWith pre mcid k = some r1 →
        (k, r2.id, r1.id) ∈ (build_row_map (pre ++ r2 :: post) mcid).2) := by
  constructor
  · intro rows mcid k
    rw [build_row_map, build_fold_lookup]
    cases h : lastRowWith rows mcid k <;> simp [lookupKV]
  · intro pre r2 post r1 mcid k hk2 hlast
    rw [build_row_map, List.foldl_append, List.foldl_cons]
    set A := pre.foldl (build_row_map_step mcid) ([], []) with hA
    have hlook : lookupKV A.1 k = some r1 := by
      rw [hA, build_fold_lookup, hlast]
    have hstep : (build_row_map_step mcid A r2).2 = A.2 ++ [(k, r2.id, r1.id)] := by
      simp [build_row_map_step, hk2, hlook]
    obtain ⟨ext, hext⟩ := build_fold_warn_mono mcid post (build_row_map_step mcid A r2)
    rw [hext, hstep]
    simp

/-- Concrete instantiation of `build_row_map_last_write_wins`: two rows
with key 1 — the map keeps row 11 and warns `(1, 11, 10)`. -/
theorem build_row_map_last_write_wins_witness :
    lookupKV (build_row_map
        [⟨10, [⟨5, .vInt 1⟩]⟩, ⟨11, [⟨5, .vInt 1⟩]⟩] 5).1 1
      = lastRowWith [⟨10, [⟨5, .vInt 1⟩]⟩, ⟨11, [⟨5, .vInt 1⟩]⟩] 5 1
    ∧ (1, 11, 10) ∈ (build_row_map
        [⟨10, [⟨5, .vInt 1⟩]⟩, ⟨11, [⟨5, .vInt 1⟩]⟩] 5).2 :=
  ⟨build_row_map_last_write_wins.1 [⟨10, [⟨5, .vInt 1⟩]⟩, ⟨11, [⟨5, .vInt 1⟩]⟩] 5 1,
   build_row_map_last_write_wins.2 [⟨10, [⟨5, .vInt 1⟩]⟩] ⟨11, [⟨5, .vInt 1⟩]⟩ []
     ⟨10, [⟨5, .vInt 1⟩]⟩ 5 1 (by decide) (by decide)⟩

/-! ## Retry with exponential backoff (`_retry_operation`) -/

/-- Outcome of one invocation of the unit of work: return a value, raise
a transient (requests network-class) exception, or raise any other
(terminal) exception. -/
inductive OpOutcome (α ε : Type) where
  | success : α → OpOutcome α ε
  | transient : ε → OpOutcome α ε
  | terminal : ε → OpOutcome α ε

/-- Observable behaviour of one `_retry_operation` call: the returned
value or raised exception (`Except.error none` models the unreachable
`raise last_exception` with `last_exception = None`), the number of
invocations of the operation, and the list of `time.sleep` delays in
order. -/
structure RetryTrace (α ε : Type) where
  result : Except (Option ε) α
  calls : ℕ
  sleeps : List ℚ

/-- The `for attempt in range(1, max_retries + 1)` loop of
`_retry_operation` (attachment_sync.py:144-162), with `fuel` the number
of iterations remaining (`max_retries - attempt + 1`): success returns;
a transient exception with `attempt < max_retries` sleeps `delay`,
doubles it and retries, otherwise re-raises; a terminal exception
re-raises at once. Running out of fuel is the trailing
`raise last_exception` (attachment_sync.py:165). -/
def retryGo (op : ℕ → OpOutcome α ε) (max_retries : ℕ) :
    ℕ → ℕ → ℚ → Option ε → RetryTrace α ε
  | 0, _, _, last => ⟨.error last, 0, []⟩
  | fuel + 1, attempt, delay, _ =>
    match op attempt with
    | .success v => ⟨.ok v, 1, []⟩
    | .transient e =>
      if attempt < max_retries then
        let t := retryGo op max_retries fuel (attempt + 1) (2 * delay) (some e)
        ⟨t.result, t.calls + 1, delay :: t.sleeps⟩
      else ⟨.error (some e), 1, []⟩
    | .terminal e => ⟨.error (some e), 1, []⟩

/-- `AttachmentSyncer._retry_operation` (attachment_sync.py:126-165):
attempts start at 1 with the configured initial delay and no recorded
last exception. -/
def retry_operation (op : ℕ → OpOutcome α ε) (max_retries : ℕ) (retry_delay : ℚ) :
    RetryTrace α ε :=
  retryGo op max_retries max_retries 1 retry_delay none

/-- C3: a unit of work that fails transiently on its first two
invocations and succeeds on the third, run with `max_retries = 3` and
initial delay `d`, returns the third invocation's value, is invoked
exactly 3 times, and sleeps exactly twice with delays `d` and `2*d`. -/
theorem retry_operation_third_attempt (op : ℕ → OpOutcome α ε) (d : ℚ)
    (e1 e2 : ε) (v : α)
    (h1 : op 1 = .transient e1) (h2 : op 2 = .transient e2)
    (h3 : op 3 = .success v) :
    retry_operation op 3 d = ⟨.ok v, 3, [d, 2 * d]⟩ := by
  simp [retry_operation, retryGo, h1, h2, h3]

/-- Concrete instantiation of `retry_operation_third_attempt`: two
transient failures then the value 7, with initial delay 5. -/
theorem retry_operation_third_attempt_witness :
    retry_operation
      (fun i => if i = 1 then .transient 0 else if i = 2 then .transient 1
                else .success 7) 3 5
      = ⟨.ok 7, 3, [5, 2 * 5]⟩ :=
  retry_operation_third_attempt _ 5 0 1 7 rfl rfl rfl

theorem retryGo_all_transient (op : ℕ → OpOutcome α ε) (max_retries : ℕ)
    (e : ℕ → ε) :
    ∀ (fuel attempt : ℕ) (delay : ℚ) (last : Option ε), 1 ≤ fuel →
      attempt + fuel = max_retries + 1 →
      (∀ i, attempt ≤ i → i < attempt + fuel → op i = .transient (e i)) →
      (retryGo op max_retries fuel attempt delay last).result
          = .error (some (e max_retries))
      ∧ (retryGo op max_retries fuel attempt delay last).calls = fuel := by
  intro fuel
  induction fuel with
  | zero => intro attempt delay last h; omega
  | succ n ih =>
    intro attempt delay last _ htot hop
    have hme : op attempt = .transient (e attempt) :=
      hop attempt le_rfl (by omega)
    by_cases hlt : attempt < max_retries
    · have hn1 : 1 ≤ n := by omega
      have ht2 : (attempt + 1) + n = max_retries + 1 := by omega
      have hop2 : ∀ i, attempt + 1 ≤ i → i < (attempt + 1) + n →
          op i = .transient (e i) := fun i h1 h2 => hop i (by omega) (by omega)
      obtain ⟨hres, hcalls⟩ := ih (attempt + 1) (2 * delay) (some (e attempt)) hn1 ht2 hop2
      constructor
      · simp [retryGo, hme, hlt, hres]
      · simp [retryGo, hme, hlt, hcalls]
    · have : attempt = max_retries := by omega
      subst this
      have : n = 0 := by omega
      subst this
      constructor <;> simp [retryGo, hme, hlt]

/-- C4: a unit of work that always fails transiently, run with
`max_retries = N ≥ 1`, is invoked exactly N times and the Nth transient
exception propagates; a unit of work that raises a terminal exception
on its first invocation propagates it after exactly one invocation,
with no sleep. -/
theorem retry_operation_failure_modes (op : ℕ → OpOutcome α ε)
    (N : ℕ) (d : ℚ) (e : ℕ → ε) (f : ε) :
    (1 ≤ N → (∀ i, 1 ≤ i → i ≤ N → op i = .transient (e i)) →
      (retry_operation op N d).result = .error (some (e N))
      ∧ (retry_operation op N d).calls = N)
    ∧ (1 ≤ N → op 1 = .terminal f →
      retry_operation op N d = ⟨.error (some f), 1, []⟩) := by
  constructor
  · intro hN hop
    exact retryGo_all_transient op N e N 1 d none hN (by omega)
      (fun i h1 h2 => hop i h1 (by omega))
  · intro hN hf
    rcases N with _ | n
    · omega
    · simp [retry_operation, retryGo, hf]

/-- Concrete instantiation of `retry_operation_failure_modes`: an
always-transient operation with `max_retries = 4`, and a
terminal-on-first-call operation with `max_retries = 3`. -/
theorem retry_operation_failure_modes_witness :
    ((retry_operation (fun i => (.transient i : OpOutcome ℕ ℕ)) 4 5).result
        = .error (some 4)
      ∧ (retry_operation (fun i => (.transient i : OpOutcome ℕ ℕ)) 4 5).calls = 4)
    ∧ retry_operation (fun _ => (.terminal 9 : OpOutcome ℕ ℕ)) 3 5
        = ⟨.error (some 9), 1, []⟩ :=
  ⟨(retry_operation_failure_modes (fun i => .transient i) 4 5 (fun i => i) 9).1
      (by decide) (fun i _ _ => rfl),
   (retry_operation_failure_modes (fun _ => .terminal 9) 3 5 (fun i => i) 9).2
      (by decide) rfl⟩

/-! ## Attachments, the network environment, and `copy_attachments_to_row` -/

/-- Attachment metadata as listed on a row (name, id, type; no URL). -/
structure Att where
  id : Int
  name : String
  attachment_type : String
deriving DecidableEq

/-- A full attachment descriptor from `get_attachment`: the short-lived
download URL (possibly absent) and the mime type. -/
structure FullAtt where
  url : Option String
  mime_type : String
deriving DecidableEq

/-- A sheet as loaded by `get_sheet`: its rows. -/
structure Sheet where
  rows : List Row
deriving DecidableEq

/-- The target sheet's attachment state, mutable across runs: row id →
attachments currently on that row. -/
def TgtWorld : Type := Int → List Att

/-- The sync statistics dictionary `self.stats`
(attachment_sync.py:54-61). -/
structure Stats where
  total_rows_processed : ℕ
  rows_with_matches : ℕ
  rows_without_matches : ℕ
  attachments_synced : ℕ
  attachments_skipped : ℕ
  errors : ℕ
deriving DecidableEq

/-- Oracles for the remote service, giving the (post-retry) outcome of
each network operation. `none`/`false` model the exception paths. -/
structure Env where
  getSourceSheet : Except String Sheet
  getTargetSheet : Except String Sheet
  listSrcAtts : Int → Option (List Att)
  listTgtOk : Int → Bool
  fetchFull : Int → Option FullAtt
  downloadOk : String → String → Bool
  uploadOk : Int → String → Bool

/-- `list_row_attachments` on the target sheet: reads the current world
unless the listing call fails. -/
def listTgtAtts (env : Env) (world : TgtWorld) (row_id : Int) : Option (List Att) :=
  if env.listTgtOk row_id then some (world row_id) else none

/-- How the per-attachment body of `copy_attachments_to_row`
(attachment_sync.py:340-411) disposes of one attachment. -/
inductive AttResult where
  | dup
  | fetchFail
  | noUrl
  | downloadFail
  | uploadFail
  | copied
deriving DecidableEq

/-- One iteration of the per-attachment loop: skip duplicates by name
(before any network call); fetch a fresh descriptor (failure → skip);
validate the URL (empty/missing → skip); download then upload (failure
→ error); otherwise copied. -/
def attStep (env : Env) (target_row_id : Int) (skip_existing : Bool)
    (existing_names : List String) (a : Att) : AttResult :=
  if skip_existing ∧ a.name ∈ existing_names then .dup
  else
    match env.fetchFull a.id with
    | none => .fetchFail
    | some full =>
      match full.url with
      | none => .noUrl
      | some u =>
        if pyStrip u.toList = [] then .noUrl
        else if env.downloadOk a.name u then
          if env.uploadOk target_row_id a.name then .copied else .uploadFail
        else .downloadFail

/-- Network calls the loop body performs for one attachment (fetch,
download, upload); a skipped duplicate performs none. -/
def attNetCalls : AttResult → ℕ
  | .dup => 0
  | .fetchFail => 1
  | .noUrl => 1
  | .downloadFail => 2
  | .uploadFail => 3
  | .copied => 3

/-- The `self.stats` update the loop body performs for one attachment:
duplicate, fetch failure and invalid URL increment
`attachments_skipped`; a download or upload exception is caught by the
per-attachment handler and increments `errors`; success increments
`attachments_synced` (attachment_sync.py:344-403). -/
def attStatsDelta (r : AttResult) (s : Stats) : Stats :=
  match r with
  | .dup => { s with attachments_skipped := s.attachments_skipped + 1 }
  | .fetchFail => { s with attachments_skipped := s.attachments_skipped + 1 }
  | .noUrl => { s with attachments_skipped := s.attachments_skipped + 1 }
  | .downloadFail => { s with errors := s.errors + 1 }
  | .uploadFail => { s with errors := s.errors + 1 }
  | .copied => { s with attachments_synced := s.attachments_synced + 1 }

/-- The `for attachment in file_attachments` loop
(attachment_sync.py:340-411): returns the copied count, the updated
stats, and the names uploaded to the target row in order. -/
def copyLoop (env : Env) (target_row_id : Int) (skip_existing : Bool)
    (existing_names : List String) : List Att → Stats → ℕ × Stats × List String
  | [], s => (0, s, [])
  | a :: rest, s =>
    let r := attStep env target_row_id skip_existing existing_names a
    let t := copyLoop env target_row_id skip_existing existing_names rest
      (attStatsDelta r s)
    match r with
    | .copied => (t.1 + 1, t.2.1, a.name :: t.2.2)
    | _ => t

/-- The existing-names set on the target row when `skip_existing` is
set: from the target cache when supplied, otherwise a direct listing
whose failure yields the empty set (attachment_sync.py:328-337,
`_get_existing_attachment_names`, `_get_attachment_names_from_cache`). -/
def existingNames (env : Env) (world : TgtWorld) (target_row_id : Int)
    (skip_existing : Bool) (target_cache : Option (List (Int × List Att))) :
    List String :=
  if skip_existing then
    match target_cache with
    | some cache => ((lookupKV cache target_row_id).getD []).map (fun a => a.name)
    | none =>
      match listTgtAtts env world target_row_id with
      | some atts =>
        (atts.filter (fun a => a.attachment_type == "FILE")).map (fun a => a.name)
      | none => []
  else []

/-- `copy_attachments_to_row` after the FILE attachment list is in hand:
return 0 at once when it is empty, else run the per-attachment loop
(attachment_sync.py:324-411). -/
def copyOnList (env : Env) (world : TgtWorld) (target_row_id : Int)
    (skip_existing : Bool) (target_cache : Option (List (Int × List Att)))
    (file_attachments : List Att) (s : Stats) : ℕ × Stats × List String :=
  if file_attachments = [] then (0, s, [])
  else copyLoop env target_row_id skip_existing
    (existingNames env world target_row_id skip_existing target_cache)
    file_attachments s

/-- `AttachmentSyncer.copy_attachments_to_row`
(attachment_sync.py:281-417): source attachments from the cache when
supplied (already FILE-filtered), else listed directly and filtered; a
listing exception is caught by the outer handler, counted as an error,
and the accumulated copied count (0) returned. -/
def copy_attachments_to_row (env : Env) (world : TgtWorld)
    (source_row_id target_row_id : Int) (skip_existing : Bool)
    (source_cache target_cache : Option (List (Int × List Att)))
    (s : Stats) : ℕ × Stats × List String :=
  match source_cache with
  | some cache =>
    copyOnList env world target_row_id skip_existing target_cache
      ((lookupKV cache source_row_id).getD []) s
  | none =>
    match env.listSrcAtts source_row_id with
    | none => (0, { s with errors := s.errors + 1 }, [])
    | some atts =>
      copyOnList env world target_row_id skip_existing target_cache
        (atts.filter (fun a => a.attachment_type == "FILE")) s

/-- Attachments of the list the loop disposes of as copied. -/
def copiedNames (env : Env) (target_row_id : Int) (skip_existing : Bool)
    (existing_names : List String) (atts : List Att) : List String :=
  (atts.filter
    (fun a => attStep env target_row_id skip_existing existing_names a == .copied)).map
    (fun a => a.name)

/-- Number of attachments of the list the loop disposes of as copied. -/
def copiedCount (env : Env) (target_row_id : Int) (skip_existing : Bool)
    (existing_names : List String) (atts : List Att) : ℕ :=
  (atts.filter
    (fun a => attStep env target_row_id skip_existing existing_names a == .copied)).length

/-- Stats after the loop: the per-attachment deltas folded in order. -/
def statsAfter (env : Env) (target_row_id : Int) (skip_existing : Bool)
    (existing_names : List String) (atts : List Att) (s : Stats) : Stats :=
  atts.foldl
    (fun s a => attStatsDelta (attStep env target_row_id skip_existing existing_names a) s) s

theorem copyLoop_spec (env : Env) (trid : Int) (skip : Bool) (ex : List String) :
    ∀ (atts : List Att) (s : Stats),
      copyLoop env trid skip ex atts s
        = (copiedCount env trid skip ex atts, statsAfter env trid skip ex atts s,
           copiedNames env trid skip ex atts) := by
  intro atts
  induction atts with
  | nil => intro s; simp [copyLoop, copiedCount, statsAfter, copiedNames]
  | cons a rest ih =>
    intro s
    rw [copyLoop]
    cases hr : attStep env trid skip ex a <;>
      simp [ih, copiedCount, statsAfter, copiedNames, hr, List.filter_cons]

theorem statsAfter_synced (env : Env) (trid : Int) (skip : Bool) (ex : List String) :
    ∀ (atts : List Att) (s : Stats),
      (statsAfter env trid skip ex atts s).attachments_synced
        = s.attachments_synced + copiedCount env trid skip ex atts := by
  intro atts
  induction atts with
  | nil => intro s; simp [statsAfter, copiedCount]
  | cons a rest ih =>
    intro s
    have hfold : statsAfter env trid skip ex (a :: rest) s
        = statsAfter env trid skip ex rest
            (attStatsDelta (attStep env trid skip ex a) s) := rfl
    rw [hfold, ih]
    cases hr : attStep env trid skip ex a <;>
      (simp [attStatsDelta, copiedCount, List.filter_cons, hr]; try omega)

/-- C10: each attachment the per-attachment loop reaches increments
exactly one of `attachments_synced`, `attachments_skipped`, `errors`,
by exactly one (the loop's stats are the in-order fold of these
single-increment deltas), and the copied count a
`copy_attachments_to_row` call returns equals the number of
`attachments_synced` increments it performed. -/
theorem per_attachment_counter_invariant :
    (∀ (r : AttResult) (s : Stats),
      (attStatsDelta r s).attachments_synced + (attStatsDelta r s).attachments_skipped
          + (attStatsDelta r s).errors
        = s.attachments_synced + s.attachments_skipped + s.errors + 1
      ∧ (((attStatsDelta r s).attachments_synced = s.attachments_synced + 1
            ∧ (attStatsDelta r s).attachments_skipped = s.attachments_skipped
            ∧ (attStatsDelta r s).errors = s.errors)
        ∨ ((attStatsDelta r s).attachments_synced = s.attachments_synced
            ∧ (attStatsDelta r s).attachments_skipped = s.attachments_skipped + 1
            ∧ (attStatsDelta r s).errors = s.errors)
        ∨ ((attStatsDelta r s).attachments_synced = s.attachments_synced
            ∧ (attStatsDelta r s).attachments_skipped = s.attachments_skipped
            ∧ (attStatsDelta r s).errors = s.errors + 1)))
    ∧ (∀ (env : Env) (trid : Int) (skip : Bool) (ex : List String)
        (atts : List Att) (s : Stats),
        copyLoop env trid skip ex atts s
          = (copiedCount env trid skip ex atts, statsAfter env trid skip ex atts s,
             copiedNames env trid skip ex atts))
    ∧ (∀ (env : Env) (world : TgtWorld) (srid trid : Int) (skip : Bool)
        (sc tc : Option (List (Int × List Att))) (s : Stats),
        (copy_attachments_to_row env world srid trid skip sc tc s).2.1.attachments_synced
          = s.attachments_synced
            + (copy_attachments_to_row env world srid trid skip sc tc s).1) := by
  refine ⟨?_, copyLoop_spec, ?_⟩
  · intro r s
    cases r <;> simp [attStatsDelta] <;> omega
  · intro env world srid trid skip sc tc s
    have hlist : ∀ (atts : List Att),
        (copyOnList env world trid skip tc atts s).2.1.attachments_synced
          = s.attachments_synced + (copyOnList env world trid skip tc atts s).1 := by
      intro atts
      by_cases h : atts = []
      · simp [copyOnList, h]
      · simp [copyOnList, h, copyLoop_spec, statsAfter_synced]
    cases sc with
    | some cache => exact hlist _
    | none =>
      cases h : env.listSrcAtts srid with
      | none => simp [copy_attachments_to_row, h]
      | some atts => simpa [copy_attachments_to_row, h] using hlist _

/-- C7: in the per-attachment loop each attachment is handled
independently: a fetch failure after retries is a skip (not an error),
a missing or blank download URL is a skip, a download or upload failure
after retries is an error, and in every case the loop goes on to
process the remaining attachments — no single attachment's failure
aborts the row pair. -/
theorem per_attachment_independence (env : Env) (trid : Int) (skip : Bool)
    (ex : List String) (a : Att) (s : Stats) :
    (¬ (skip ∧ a.name ∈ ex) → env.fetchFull a.id = none →
      attStep env trid skip ex a = .fetchFail
      ∧ attStatsDelta (attStep env trid skip ex a) s
          = { s with attachments_skipped := s.attachments_skipped + 1 })
    ∧ (∀ full : FullAtt, ¬ (skip ∧ a.name ∈ ex) → env.fetchFull a.id = some full →
        full.url = none →
        attStep env trid skip ex a = .noUrl
        ∧ attStatsDelta (attStep env trid skip ex a) s
            = { s with attachments_skipped := s.attachments_skipped + 1 })
    ∧ (∀ (full : FullAtt) (u : String), ¬ (skip ∧ a.name ∈ ex) →
        env.fetchFull a.id = some full → full.url = some u →
        pyStrip u.toList = [] →
        attStep env trid skip ex a = .noUrl
        ∧ attStatsDelta (attStep env trid skip ex a) s
            = { s with attachments_skipped := s.attachments_skipped + 1 })
    ∧ (∀ (full : FullAtt) (u : String), ¬ (skip ∧ a.name ∈ ex) →
        env.fetchFull a.id = some full → full.url = some u →
        pyStrip u.toList ≠ [] → env.downloadOk a.name u = false →
        attStep env trid skip ex a = .downloadFail
        ∧ attStatsDelta (attStep env trid skip ex a) s
            = { s with errors := s.errors + 1 })
    ∧ (∀ (full : FullAtt) (u : String), ¬ (skip ∧ a.name ∈ ex) →
        env.fetchFull a.id = some full → full.url = some u →
        pyStrip u.toList ≠ [] → env.downloadOk a.name u = true →
        env.uploadOk trid a.name = false →
        attStep env trid skip ex a = .uploadFail
        ∧ attStatsDelta (attStep env trid skip ex a) s
            = { s with errors := s.errors + 1 })
    ∧ (∀ rest : List Att,
        copyLoop env trid skip ex (a :: rest) s
          = ((if attStep env trid skip ex a = .copied
              then (copyLoop env trid skip ex rest
                (attStatsDelta (attStep env trid skip ex a) s)).1 + 1
              else (copyLoop env trid skip ex rest
                (attStatsDelta (attStep env trid skip ex a) s)).1),
             (copyLoop env trid skip ex rest
                (attStatsDelta (attStep env trid skip ex a) s)).2.1,
             (if attStep env trid skip ex a = .copied
              then a.name :: (copyLoop env trid skip ex rest
                (attStatsDelta (attStep env trid skip ex a) s)).2.2
              else (copyLoop env trid skip ex rest
                (attStatsDelta (attStep env trid skip ex a) s)).2.2))) := by
  refine ⟨?_, ?_, ?_, ?_, ?_, ?_⟩
  · intro hmem hf
    have h : attStep env trid skip ex a = .fetchFail := by
      simp [attStep, hmem, hf]
    exact ⟨h, by rw [h]; rfl⟩
  · intro full hmem hf hu
    have h : attStep env trid skip ex a = .noUrl := by
      simp [attStep, hmem, hf, hu]
    exact ⟨h, by rw [h]; rfl⟩
  · intro full u hmem hf hu hstrip
    simp only [String.toList] at hstrip
    have h : attStep env trid skip ex a = .noUrl := by
      simp [attStep, String.toList, hmem, hf, hu, hstrip]
    exact ⟨h, by rw [h]; rfl⟩
  · intro full u hmem hf hu hstrip hdl
    simp only [String.toList] at hstrip
    have h : attStep env trid skip ex a = .downloadFail := by
      simp [attStep, String.toList, hmem, hf, hu, hstrip, hdl]
    exact ⟨h, by rw [h]; rfl⟩
  · intro full u hmem hf hu hstrip hdl hul
    simp only [String.toList] at hstrip
    have h : attStep env trid skip ex a = .uploadFail := by
      simp [attStep, String.toList, hmem, hf, hu, hstrip, hdl, hul]
    exact ⟨h, by rw [h]; rfl⟩
  · intro rest
    rw [copyLoop]
    cases hr : attStep env trid skip ex a <;> simp [hr]

/-- C1: a matched row pair processed with `skip_existing = true`, source
cache `{"a.pdf", "b.png"}`, target cache `{"a.pdf"}`: `a.pdf` is
skipped as a duplicate (one `attachments_skipped` increment, zero
network calls for it), exactly `b.png` is copied, and the call returns
copied-count 1. -/
theorem copy_skips_duplicate_copies_new (env : Env) (world : TgtWorld)
    (srid trid ida idb idc : Int) (fb : FullAtt) (u : String) (s : Stats)
    (hfetch : env.fetchFull idb = some fb) (hurl : fb.url = some u)
    (hu : pyStrip u.toList ≠ [])
    (hdl : env.downloadOk "b.png" u = true)
    (hul : env.uploadOk trid "b.png" = true) :
    copy_attachments_to_row env world srid trid true
        (some [(srid, [⟨ida, "a.pdf", "FILE"⟩, ⟨idb, "b.png", "FILE"⟩])])
        (some [(trid, [⟨idc, "a.pdf", "FILE"⟩])]) s
      = (1, { s with
               attachments_synced := s.attachments_synced + 1
               attachments_skipped := s.attachments_skipped + 1 }, ["b.png"])
    ∧ attStep env trid true ["a.pdf"] ⟨ida, "a.pdf", "FILE"⟩ = .dup
    ∧ attNetCalls (attStep env trid true ["a.pdf"] ⟨ida, "a.pdf", "FILE"⟩) = 0 := by
  have hdup : attStep env trid true ["a.pdf"] ⟨ida, "a.pdf", "FILE"⟩ = .dup := by
    simp [attStep]
  refine ⟨?_, hdup, by rw [hdup]; rfl⟩
  have hex : existingNames env world trid true (some [(trid, [⟨idc, "a.pdf", "FILE"⟩])])
      = ["a.pdf"] := by
    simp [existingNames, lookupKV]
  have hb : attStep env trid true ["a.pdf"] ⟨idb, "b.png", "FILE"⟩ = .copied := by
    simp only [String.toList] at hu
    simp [attStep, String.toList, hfetch, hurl, hu, hdl, hul]
  simp [copy_attachments_to_row, copyOnList, lookupKV, hex, copyLoop, hdup, hb,
    attStatsDelta]

/-- Concrete instantiation of `copy_skips_duplicate_copies_new` with an
all-succeeding environment. -/
theorem copy_skips_duplicate_copies_new_witness :
    copy_attachments_to_row
        ⟨.error "", .error "", fun _ => none, fun _ => true,
         fun _ => some ⟨some "https", "application"⟩, fun _ _ => true,
         fun _ _ => true⟩
        (fun _ => []) 100 200 true
        (some [(100, [⟨1, "a.pdf", "FILE"⟩, ⟨2, "b.png", "FILE"⟩])])
        (some [(200, [⟨3, "a.pdf", "FILE"⟩])]) ⟨0, 0, 0, 0, 0, 0⟩
      = (1, (⟨0, 0, 0, 0 + 1, 0 + 1, 0⟩ : Stats), ["b.png"]) :=
  (copy_skips_duplicate_copies_new
      ⟨.error "", .error "", fun _ => none, fun _ => true,
       fun _ => some ⟨some "https", "application"⟩, fun _ _ => true,
       fun _ _ => true⟩
      (fun _ => []) 100 200 1 2 3 ⟨some "https", "application"⟩ "https"
      ⟨0, 0, 0, 0, 0, 0⟩ rfl rfl (by decide) rfl rfl).1

/-- Concrete instantiation of `per_attachment_independence`: a fetch
failure is a skip, and the loop continues past it. -/
theorem per_attachment_independence_witness :
    attStep ⟨.error "", .error "", fun _ => none, fun _ => true, fun _ => none,
        fun _ _ => true, fun _ _ => true⟩ 200 true [] ⟨1, "x.pdf", "FILE"⟩
      = .fetchFail :=
  ((per_attachment_independence
      ⟨.error "", .error "", fun _ => none, fun _ => true, fun _ => none,
       fun _ _ => true, fun _ _ => true⟩ 200 true [] ⟨1, "x.pdf", "FILE"⟩
      ⟨0, 0, 0, 0, 0, 0⟩).1 (by decide) rfl).1

/-! ## The orchestrator (`sync_attachments`) -/

/-- The matched keys with their source and target rows, in source-map
iteration order (attachment_sync.py:460-463 and the main loop's
membership test). -/
def matchedPairs (source_map target_map : List (Int × Row)) :
    List (Int × Row × Row) :=
  source_map.filterMap
    (fun kr => (lookupKV target_map kr.1).map (fun tr => (kr.1, kr.2, tr)))

/-- The value `_build_attachment_cache` stores for one row: the FILE
attachments listed, or `[]` when the listing call raises
(attachment_sync.py:217-235). -/
def cacheVal (listAtts : Int → Option (List Att)) (row_id : Int) : List Att :=
  match listAtts row_id with
  | some atts => atts.filter (fun a => a.attachment_type == "FILE")
  | none => []

/-- `AttachmentSyncer._build_attachment_cache`
(attachment_sync.py:199-238). -/
def build_attachment_cache (listAtts : Int → Option (List Att))
    (row_ids : List Int) : List (Int × List Att) :=
  row_ids.foldl (fun cache rid => insertKV cache rid (cacheVal listAtts rid)) []

/-- The matched pairs of one run, from the loaded sheets. -/
def matchedOf (ss ts : Sheet) (smcid tmcid : Int) : List (Int × Row × Row) :=
  matchedPairs (build_row_map ss.rows smcid).1 (build_row_map ts.rows tmcid).1

/-- The source attachment cache of one run (matched source rows only). -/
def srcCacheOf (env : Env) (ss ts : Sheet) (smcid tmcid : Int) :
    List (Int × List Att) :=
  build_attachment_cache env.listSrcAtts
    ((matchedOf ss ts smcid tmcid).map (fun m => m.2.1.id))

/-- The target attachment cache of one run (matched target rows only),
built against the target sheet's current attachment state. -/
def tgtCacheOf (env : Env) (world : TgtWorld) (ss ts : Sheet)
    (smcid tmcid : Int) : List (Int × List Att) :=
  build_attachment_cache (listTgtAtts env world)
    ((matchedOf ss ts smcid tmcid).map (fun m => m.2.2.id))

/-- The cached FILE attachments of a source row in one run. -/
def srcAttsOf (env : Env) (ss ts : Sheet) (smcid tmcid : Int) (srid : Int) :
    List Att :=
  (lookupKV (srcCacheOf env ss ts smcid tmcid) srid).getD []

/-- The `for match_key, source_row in source_map.items()` loop
(attachment_sync.py:475-501): returns the final stats, the
(source row id, target row id) pairs the attachment transfer was
invoked on, and per invoked pair the names uploaded to its target row. -/
def syncLoop (env : Env) (world : TgtWorld) (target_map : List (Int × Row))
    (src_cache tgt_cache : List (Int × List Att)) :
    List (Int × Row) → Stats → Stats × List (Int × Int) × List (Int × List String)
  | [], s => (s, [], [])
  | (k, row) :: rest, s =>
    let s1 := { s with total_rows_processed := s.total_rows_processed + 1 }
    match lookupKV target_map k with
    | none =>
      syncLoop env world target_map src_cache tgt_cache rest
        { s1 with rows_without_matches := s1.rows_without_matches + 1 }
    | some target_row =>
      let s2 := { s1 with rows_with_matches := s1.rows_with_matches + 1 }
      let c := copy_attachments_to_row env world row.id target_row.id true
        (some src_cache) (some tgt_cache) s2
      let t := syncLoop env world target_map src_cache tgt_cache rest c.2.1
      (t.1, (row.id, target_row.id) :: t.2.1, (target_row.id, c.2.2) :: t.2.2)

/-- The body of `sync_attachments` once both sheets are loaded
(attachment_sync.py:442-513): build both row maps, pre-fetch both
attachment caches for the matched rows, and run the main loop. -/
def syncRun (env : Env) (world : TgtWorld) (ss ts : Sheet)
    (smcid tmcid : Int) (s0 : Stats) :
    Stats × List (Int × Int) × List (Int × List String) :=
  syncLoop env world (build_row_map ts.rows tmcid).1
    (srcCacheOf env ss ts smcid tmcid) (tgtCacheOf env world ss ts smcid tmcid)
    (build_row_map ss.rows smcid).1 s0

/-- `AttachmentSyncer.sync_attachments` (attachment_sync.py:419-525):
an exception escaping the body is counted in `errors` and re-raised;
`.error` carries the exception together with the partial stats the
caller can still read from the syncer. -/
def sync_attachments (env : Env) (world : TgtWorld) (smcid tmcid : Int)
    (s0 : Stats) :
    Except (String × Stats) (Stats × List (Int × Int) × List (Int × List String)) :=
  match env.getSourceSheet with
  | .error e => .error (e, { s0 with errors := s0.errors + 1 })
  | .ok ss =>
    match env.getTargetSheet with
    | .error e => .error (e, { s0 with errors := s0.errors + 1 })
    | .ok ts => .ok (syncRun env world ss ts smcid tmcid s0)

/-- Names a run uploaded to one target row, in order. -/
def uploadedNames (ups : List (Int × List String)) (row_id : Int) : List String :=
  ups.foldl (fun acc p => if p.1 = row_id then acc ++ p.2 else acc) []

/-- The target sheet's attachment state after a run's uploads: each
uploaded file becomes a FILE attachment with its name on its row. -/
def applyUploads (world : TgtWorld) (ups : List (Int × List String)) : TgtWorld :=
  fun row_id =>
    world row_id ++ (uploadedNames ups row_id).map (fun n => ⟨0, n, "FILE"⟩)

/-- C8: an exception escaping the orchestrator's setup (in the code only
the dataset loads can raise — indexing, cache building and the per-row
transfers catch their own exceptions) increments the `errors` counter
and is re-raised to the caller together with the run's partial stats. -/
theorem sync_fatal_error_propagates (env : Env) (world : TgtWorld)
    (smcid tmcid : Int) (s0 : Stats) (e : String) :
    (env.getSourceSheet = .error e →
      sync_attachments env world smcid tmcid s0
        = .error (e, { s0 with errors := s0.errors + 1 }))
    ∧ (∀ ss : Sheet, env.getSourceSheet = .ok ss →
        env.getTargetSheet = .error e →
        sync_attachments env world smcid tmcid s0
          = .error (e, { s0 with errors := s0.errors + 1 })) := by
  constructor
  · intro h
    simp [sync_attachments, h]
  · intro ss hs ht
    simp [sync_attachments, hs, ht]

/-- Concrete instantiation of `sync_fatal_error_propagates`: a failing
source-sheet load. -/
theorem sync_fatal_error_propagates_witness :
    sync_attachments
        ⟨.error "load failed", .error "load failed", fun _ => some [],
         fun _ => true, fun _ => none, fun _ _ => false, fun _ _ => false⟩
        (fun _ => []) 5 7 ⟨0, 0, 0, 0, 0, 0⟩
      = .error ("load failed", { (⟨0, 0, 0, 0, 0, 0⟩ : Stats) with errors := 0 + 1 }) :=
  (sync_fatal_error_propagates
      ⟨.error "load failed", .error "load failed", fun _ => some [],
       fun _ => true, fun _ => none, fun _ _ => false, fun _ _ => false⟩
      (fun _ => []) 5 7 ⟨0, 0, 0, 0, 0, 0⟩ "load failed").1 rfl

theorem attStatsDelta_row_counters (r : AttResult) (s : Stats) :
    (attStatsDelta r s).total_rows_processed = s.total_rows_processed
    ∧ (attStatsDelta r s).rows_with_matches = s.rows_with_matches
    ∧ (attStatsDelta r s).rows_without_matches = s.rows_without_matches := by
  cases r <;> simp [attStatsDelta]

theorem statsAfter_row_counters (env : Env) (trid : Int) (skip : Bool)
    (ex : List String) :
    ∀ (atts : List Att) (s : Stats),
      (statsAfter env trid skip ex atts s).total_rows_processed
          = s.total_rows_processed
      ∧ (statsAfter env trid skip ex atts s).rows_with_matches
          = s.rows_with_matches
      ∧ (statsAfter env trid skip ex atts s).rows_without_matches
          = s.rows_without_matches := by
  intro atts
  induction atts with
  | nil => intro s; exact ⟨rfl, rfl, rfl⟩
  | cons a rest ih =>
    intro s
    have hfold : statsAfter env trid skip ex (a :: rest) s
        = statsAfter env trid skip ex rest
            (attStatsDelta (attStep env trid skip ex a) s) := rfl
    obtain ⟨h1, h2, h3⟩ := ih (attStatsDelta (attStep env trid skip ex a) s)
    obtain ⟨g1, g2, g3⟩ := attStatsDelta_row_counters (attStep env trid skip ex a) s
    rw [hfold]
    exact ⟨h1.trans g1, h2.trans g2, h3.trans g3⟩

theorem copy_row_counters (env : Env) (world : TgtWorld) (srid trid : Int)
    (skip : Bool) (sc tc : Option (List (Int × List Att))) (s : Stats) :
    (copy_attachments_to_row env world srid trid skip sc tc s).2.1.total_rows_processed
        = s.total_rows_processed
    ∧ (copy_attachments_to_row env world srid trid skip sc tc s).2.1.rows_with_matches
        = s.rows_with_matches
    ∧ (copy_attachments_to_row env world srid trid skip sc tc s).2.1.rows_without_matches
        = s.rows_without_matches := by
  have hlist : ∀ atts : List Att,
      (copyOnList env world trid skip tc atts s).2.1.total_rows_processed
          = s.total_rows_processed
      ∧ (copyOnList env world trid skip tc atts s).2.1.rows_with_matches
          = s.rows_with_matches
      ∧ (copyOnList env world trid skip tc atts s).2.1.rows_without_matches
          = s.rows_without_matches := by
    intro atts
    by_cases h : atts = []
    · simp [copyOnList, h]
    · simp only [copyOnList, h, if_false, copyLoop_spec]
      exact statsAfter_row_counters env trid skip _ atts s
  cases sc with
  | some cache => exact hlist _
  | none =>
    cases h : env.listSrcAtts srid with
    | none => simp [copy_attachments_to_row, h]
    | some atts => simpa [copy_attachments_to_row, h] using hlist _

theorem syncLoop_cons_none (env : Env) (world : TgtWorld)
    (tmap : List (Int × Row)) (sc tc : List (Int × List Att))
    (k : Int) (row : Row) (rest : List (Int × Row)) (s : Stats)
    (hk : lookupKV tmap k = none) :
    syncLoop env world tmap sc tc ((k, row) :: rest) s
      = syncLoop env world tmap sc tc rest
          { s with
            total_rows_processed := s.total_rows_processed + 1
            rows_without_matches := s.rows_without_matches + 1 } := by
  simp only [syncLoop, hk]

theorem syncLoop_cons_some (env : Env) (world : TgtWorld)
    (tmap : List (Int × Row)) (sc tc : List (Int × List Att))
    (k : Int) (row : Row) (rest : List (Int × Row)) (s : Stats) (tr : Row)
    (hk : lookupKV tmap k = some tr) :
    syncLoop env world tmap sc tc ((k, row) :: rest) s
      = ((syncLoop env world tmap sc tc rest
            (copy_attachments_to_row env world row.id tr.id true
              (some sc) (some tc)
              { s with
                total_rows_processed := s.total_rows_processed + 1
                rows_with_matches := s.rows_with_matches + 1 }).2.1).1,
         (row.id, tr.id) ::
           (syncLoop env world tmap sc tc rest
            (copy_attachments_to_row env world row.id tr.id true
              (some sc) (some tc)
              { s with
                total_rows_processed := s.total_rows_processed + 1
                rows_with_matches := s.rows_with_matches + 1 }).2.1).2.1,
         (tr.id, (copy_attachments_to_row env world row.id tr.id true
              (some sc) (some tc)
              { s with
                total_rows_processed := s.total_rows_processed + 1
                rows_with_matches := s.rows_with_matches + 1 }).2.2) ::
           (syncLoop env world tmap sc tc rest
            (copy_attachments_to_row env world row.id tr.id true
              (some sc) (some tc)
              { s with
                total_rows_processed := s.total_rows_processed + 1
                rows_with_matches := s.rows_with_matches + 1 }).2.1).2.2) := by
  simp only [syncLoop, hk]

theorem syncLoop_match_spec (env : Env) (world : TgtWorld)
    (tmap : List (Int × Row)) (sc tc : List (Int × List Att)) :
    ∀ (entries : List (Int × Row)) (s : Stats),
      (syncLoop env world tmap sc tc entries s).2.1
        = entries.filterMap
            (fun kr => (lookupKV tmap kr.1).map (fun tr => (kr.2.id, tr.id)))
      ∧ (syncLoop env world tmap sc tc entries s).1.rows_without_matches
        = s.rows_without_matches
          + (entries.filter (fun kr => (lookupKV tmap kr.1).isNone)).length
      ∧ (syncLoop env world tmap sc tc entries s).1.rows_with_matches
        = s.rows_with_matches
          + (entries.filter (fun kr => (lookupKV tmap kr.1).isSome)).length
      ∧ (syncLoop env world tmap sc tc entries s).1.total_rows_processed
        = s.total_rows_processed + entries.length := by
  intro entries
  induction entries with
  | nil => intro s; simp [syncLoop]
  | cons kr rest ih =>
    intro s
    rcases kr with ⟨k, row⟩
    cases hk : lookupKV tmap k with
    | none =>
      obtain ⟨i1, i2, i3, i4⟩ := ih
        { s with
          total_rows_processed := s.total_rows_processed + 1
          rows_without_matches := s.rows_without_matches + 1 }
      rw [syncLoop_cons_none env world tmap sc tc k row rest s hk]
      refine ⟨?_, ?_, ?_, ?_⟩ <;>
        (simp [i1, i2, i3, i4, List.filter_cons, List.filterMap_cons, hk]; try omega)
    | some tr =>
      obtain ⟨c1, c2, c3⟩ := copy_row_counters env world row.id tr.id true
        (some sc) (some tc)
        { s with
          total_rows_processed := s.total_rows_processed + 1
          rows_with_matches := s.rows_with_matches + 1 }
      obtain ⟨i1, i2, i3, i4⟩ := ih
        (copy_attachments_to_row env world row.id tr.id true
          (some sc) (some tc)
          { s with
            total_rows_processed := s.total_rows_processed + 1
            rows_with_matches := s.rows_with_matches + 1 }).2.1
      rw [syncLoop_cons_some env world tmap sc tc k row rest s tr hk]
      refine ⟨?_, ?_, ?_, ?_⟩ <;>
        (simp [i1, i2, i3, i4, c1, c2, c3, List.filter_cons, List.filterMap_cons, hk];
         try omega)

/-- C9: the transfer invocations of a run are exactly the matched
pairs (a source key absent from the target index increments the
unmatched counter and never reaches the transfer), and on source rows
`[{key 1, row 10}, {key 2, row 11}]` against target `[{key 1, row 20}]`
the run reports 1 matched row, 1 unmatched row, and invokes the
transfer only on the pair (10, 20). -/
theorem sync_matching_report :
    (∀ (env : Env) (world : TgtWorld) (tmap : List (Int × Row))
        (sc tc : List (Int × List Att)) (entries : List (Int × Row)) (s : Stats),
      (syncLoop env world tmap sc tc entries s).2.1
        = entries.filterMap
            (fun kr => (lookupKV tmap kr.1).map (fun tr => (kr.2.id, tr.id)))
      ∧ (syncLoop env world tmap sc tc entries s).1.rows_without_matches
        = s.rows_without_matches
          + (entries.filter (fun kr => (lookupKV tmap kr.1).isNone)).length
      ∧ (syncLoop env world tmap sc tc entries s).1.rows_with_matches
        = s.rows_with_matches
          + (entries.filter (fun kr => (lookupKV tmap kr.1).isSome)).length)
    ∧ sync_attachments
        ⟨.ok ⟨[⟨10, [⟨5, .vInt 1⟩]⟩, ⟨11, [⟨5, .vInt 2⟩]⟩]⟩,
         .ok ⟨[⟨20, [⟨7, .vInt 1⟩]⟩]⟩,
         fun _ => some [], fun _ => true, fun _ => none,
         fun _ _ => false, fun _ _ => false⟩
        (fun _ => []) 5 7 ⟨0, 0, 0, 0, 0, 0⟩
      = .ok (⟨2, 1, 1, 0, 0, 0⟩, [(10, 20)], [(20, [])]) := by
  constructor
  · intro env world tmap sc tc entries s
    obtain ⟨h1, h2, h3, _⟩ := syncLoop_match_spec env world tmap sc tc entries s
    exact ⟨h1, h2, h3⟩
  · rfl

theorem build_cache_fold_lookup (listAtts : Int → Option (List Att)) :
    ∀ (rids : List Int) (acc : List (Int × List Att)) (r : Int),
      lookupKV
        (rids.foldl (fun cache rid => insertKV cache rid (cacheVal listAtts rid)) acc) r
        = if r ∈ rids then some (cacheVal listAtts r) else lookupKV acc r := by
  intro rids
  induction rids with
  | nil => intro acc r; simp
  | cons rid rest ih =>
    intro acc r
    rw [List.foldl_cons, ih]
    by_cases hr : r ∈ rest
    · simp [hr]
    · by_cases he : rid = r
      · subst he
        simp [hr, lookupKV_insertKV]
      · have hnc : ¬ r ∈ rid :: rest := by
          rw [List.mem_cons]
          push_neg
          exact ⟨fun h => he h.symm, hr⟩
        simp [hr, hnc, lookupKV_insertKV, he]

theorem build_attachment_cache_lookup (listAtts : Int → Option (List Att))
    (rids : List Int) (r : Int) (hr : r ∈ rids) :
    lookupKV (build_attachment_cache listAtts rids) r
      = some (cacheVal listAtts r) := by
  rw [build_attachment_cache, build_cache_fold_lookup, if_pos hr]

theorem statsAfter_all_dup (env : Env) (trid : Int) (skip : Bool)
    (ex : List String) :
    ∀ (atts : List Att) (s : Stats),
      (∀ a ∈ atts, attStep env trid skip ex a = .dup) →
      statsAfter env trid skip ex atts s
        = { s with attachments_skipped := s.attachments_skipped + atts.length } := by
  intro atts
  induction atts with
  | nil =>
    intro s _
    rcases s with ⟨a, b, c, d, e, f⟩
    simp [statsAfter]
  | cons a rest ih =>
    intro s h
    have ha : attStep env trid skip ex a = .dup := h a (by simp)
    have hfold : statsAfter env trid skip ex (a :: rest) s
        = statsAfter env trid skip ex rest
            (attStatsDelta (attStep env trid skip ex a) s) := rfl
    rw [hfold, ha, ih _ (fun x hx => h x (by simp [hx]))]
    rcases s with ⟨a', b', c', d', e', f'⟩
    simp [attStatsDelta]
    omega

theorem copiedNames_all_dup (env : Env) (trid : Int) (skip : Bool)
    (ex : List String) (atts : List Att)
    (h : ∀ a ∈ atts, attStep env trid skip ex a = .dup) :
    copiedNames env trid skip ex atts = [] ∧ copiedCount env trid skip ex atts = 0 := by
  have hf : atts.filter (fun a => attStep env trid skip ex a == .copied) = [] := by
    rw [List.filter_eq_nil_iff]
    intro a ha
    simp [h a ha]
  constructor
  · rw [copiedNames, hf]; rfl
  · rw [copiedCount, hf]; rfl

theorem copy_cached_all_dup (env : Env) (world : TgtWorld) (srid trid : Int)
    (sc tc : List (Int × List Att)) (s : Stats)
    (h : ∀ a ∈ (lookupKV sc srid).getD [],
      attStep env trid true (existingNames env world trid true (some tc)) a = .dup) :
    copy_attachments_to_row env world srid trid true (some sc) (some tc) s
      = (0, { s with attachments_skipped :=
                s.attachments_skipped + ((lookupKV sc srid).getD []).length }, []) := by
  by_cases hemp : (lookupKV sc srid).getD [] = []
  · rcases s with ⟨a, b, c, d, e, f⟩
    simp [copy_attachments_to_row, copyOnList, hemp]
  · obtain ⟨hn, hc⟩ := copiedNames_all_dup env trid true
      (existingNames env world trid true (some tc)) _ h
    rw [copy_attachments_to_row]
    simp only [copyOnList, hemp, if_false, copyLoop_spec, hn, hc,
      statsAfter_all_dup env trid true _ _ s h]

theorem copy_ups_const (env : Env) (world : TgtWorld) (srid trid : Int)
    (skip : Bool) (sc tc : Option (List (Int × List Att))) (s s' : Stats) :
    (copy_attachments_to_row env world srid trid skip sc tc s).2.2
      = (copy_attachments_to_row env world srid trid skip sc tc s').2.2 := by
  have hlist : ∀ (atts : List Att),
      (copyOnList env world trid skip tc atts s).2.2
        = (copyOnList env world trid skip tc atts s').2.2 := by
    intro atts
    by_cases h : atts = []
    · simp [copyOnList, h]
    · simp [copyOnList, h, copyLoop_spec]
  cases sc with
  | some cache => exact hlist _
  | none =>
    cases h : env.listSrcAtts srid with
    | none => simp [copy_attachments_to_row, h]
    | some atts => simpa [copy_attachments_to_row, h] using hlist _

/-- The names one matched pair's transfer uploads (independent of the
stats accumulator it is run with). -/
def copyUpsOf (env : Env) (world : TgtWorld) (sc tc : List (Int × List Att))
    (srid trid : Int) : List String :=
  (copy_attachments_to_row env world srid trid true (some sc) (some tc)
    ⟨0, 0, 0, 0, 0, 0⟩).2.2

theorem syncLoop_uploads (env : Env) (world : TgtWorld)
    (tmap : List (Int × Row)) (sc tc : List (Int × List Att)) :
    ∀ (entries : List (Int × Row)) (s : Stats),
      (syncLoop env world tmap sc tc entries s).2.2
        = entries.filterMap (fun kr => (lookupKV tmap kr.1).map
            (fun tr => (tr.id, copyUpsOf env world sc tc kr.2.id tr.id))) := by
  intro entries
  induction entries with
  | nil => intro s; simp [syncLoop]
  | cons kr rest ih =>
    intro s
    rcases kr with ⟨k, row⟩
    cases hk : lookupKV tmap k with
    | none =>
      rw [syncLoop_cons_none env world tmap sc tc k row rest s hk, ih]
      simp [List.filterMap_cons, hk]
    | some tr =>
      rw [syncLoop_cons_some env world tmap sc tc k row rest s tr hk, ih]
      simp only [List.filterMap_cons, hk, Option.map_some]
      congr 1
      · congr 1
        exact copy_ups_const env world row.id tr.id true (some sc) (some tc) _ _

theorem mem_uploadedNames_acc (t : Int) (n : String) :
    ∀ (ups : List (Int × List String)) (acc : List String), n ∈ acc →
      n ∈ ups.foldl (fun acc p => if p.1 = t then acc ++ p.2 else acc) acc := by
  intro ups
  induction ups with
  | nil => intro acc h; simpa using h
  | cons p rest ih =>
    intro acc h
    rw [List.foldl_cons]
    by_cases hp : p.1 = t
    · exact ih _ (by simp [hp, h])
    · exact ih _ (by simp [hp, h])

theorem mem_uploadedNames (t : Int) (n : String) :
    ∀ (ups : List (Int × List String)) (l : List String),
      (t, l) ∈ ups → n ∈ l → n ∈ uploadedNames ups t := by
  have haux : ∀ (ups : List (Int × List String)) (acc : List String)
      (l : List String), (t, l) ∈ ups → n ∈ l →
      n ∈ ups.foldl (fun acc p => if p.1 = t then acc ++ p.2 else acc) acc := by
    intro ups
    induction ups with
    | nil => intro acc l h; simp at h
    | cons p rest ih =>
      intro acc l hl hn
      rw [List.foldl_cons]
      rcases List.mem_cons.mp hl with heq | hmem
      · subst heq
        exact mem_uploadedNames_acc t n rest _ (by simp [hn])
      · exact ih _ l hmem hn
  intro ups l hl hn
  exact haux ups [] l hl hn

theorem applyUploads_names (world : TgtWorld)
    (ups : List (Int × List String)) (rid : Int) :
    ((applyUploads world ups rid).filter
        (fun a => a.attachment_type == "FILE")).map (fun a => a.name)
      = ((world rid).filter (fun a => a.attachment_type == "FILE")).map
          (fun a => a.name)
        ++ uploadedNames ups rid := by
  rw [applyUploads]
  rw [List.filter_append, List.map_append]
  congr 1
  rw [List.filter_map, List.map_map]
  have : (fun a => a.attachment_type == "FILE")
      ∘ (fun n => (⟨0, n, "FILE"⟩ : Att)) = fun _ => true := by
    funext n; rfl
  rw [this, List.filter_true]
  have h2 : ((fun a => a.name) ∘ fun n => (⟨0, n, "FILE"⟩ : Att)) = fun n => n := by
    funext n
    rfl
  rw [h2, List.map_id']

theorem existingNames_cached (env : Env) (world : TgtWorld) (trid : Int)
    (rids : List Int) (hr : trid ∈ rids) (hok : env.listTgtOk trid = true) :
    existingNames env world trid true
        (some (build_attachment_cache (listTgtAtts env world) rids))
      = ((world trid).filter (fun a => a.attachment_type == "FILE")).map
          (fun a => a.name) := by
  rw [existingNames]
  simp [build_attachment_cache_lookup _ _ _ hr, cacheVal, listTgtAtts, hok]

theorem attStep_dup_mem (env : Env) (trid : Int) (skip : Bool)
    (ex : List String) (a : Att)
    (h : attStep env trid skip ex a = .dup) : skip = true ∧ a.name ∈ ex := by
  by_cases hc : skip = true ∧ a.name ∈ ex
  · exact hc
  · exfalso
    rw [attStep, if_neg hc] at h
    cases hf : env.fetchFull a.id with
    | none => rw [hf] at h; simp at h
    | some full =>
      rw [hf] at h
      dsimp only at h
      cases hu : full.url with
      | none => rw [hu] at h; simp at h
      | some u =>
        rw [hu] at h
        dsimp only at h
        split_ifs at h

theorem syncLoop_all_dup (env : Env) (world : TgtWorld)
    (tmap : List (Int × Row)) (sc tc : List (Int × List Att)) :
    ∀ (entries : List (Int × Row)) (s : Stats),
      (∀ kr ∈ entries, ∀ tr : Row, lookupKV tmap kr.1 = some tr →
        ∀ a ∈ (lookupKV sc kr.2.id).getD [],
          attStep env tr.id true
            (existingNames env world tr.id true (some tc)) a = .dup) →
      (syncLoop env world tmap sc tc entries s).1.attachments_synced
          = s.attachments_synced
      ∧ (syncLoop env world tmap sc tc entries s).1.attachments_skipped
          = s.attachments_skipped
            + (entries.filterMap (fun kr => (lookupKV tmap kr.1).map
                (fun _ => ((lookupKV sc kr.2.id).getD []).length))).sum := by
  intro entries
  induction entries with
  | nil => intro s _; simp [syncLoop]
  | cons kr rest ih =>
    intro s h
    rcases kr with ⟨k, row⟩
    obtain ⟨i1, i2⟩ := ih _ (fun kr hkr => h kr (by simp [hkr]))
    cases hk : lookupKV tmap k with
    | none =>
      rw [syncLoop_cons_none env world tmap sc tc k row rest s hk]
      refine ⟨by rw [i1], ?_⟩
      rw [i2]
      simp [List.filterMap_cons, hk]
    | some tr =>
      have hd := h (k, row) (by simp) tr hk
      rw [syncLoop_cons_some env world tmap sc tc k row rest s tr hk,
        copy_cached_all_dup env world row.id tr.id sc tc _ hd]
      obtain ⟨j1, j2⟩ := ih
        ((0, { { s with
            total_rows_processed := s.total_rows_processed + 1
            rows_with_matches := s.rows_with_matches + 1 } with
              attachments_skipped :=
                ({ s with
                  total_rows_processed := s.total_rows_processed + 1
                  rows_with_matches := s.rows_with_matches + 1 }
                  : Stats).attachments_skipped
                + ((lookupKV sc row.id).getD []).length },
          ([] : List String)) : ℕ × Stats × List String).2.1
        (fun kr hkr => h kr (by simp [hkr]))
      refine ⟨?_, ?_⟩
      · rw [j1]
      · rw [j2]
        simp [List.filterMap_cons, hk]
        omega

/-- C2: running the sync twice in succession — the second run against
the target attachment state extended by exactly the first run's uploads
— when the first run disposed of every source FILE attachment on
matched rows as copied or as an already-present duplicate, and the
target listing succeeds on the matched rows: every such attachment's
name is then in its target row's existing-names set, the second run
disposes of every one of them as a skipped duplicate, syncs zero new
attachments, and counts them all in `attachments_skipped`. -/
theorem sync_idempotent (env : Env) (world : TgtWorld) (smcid tmcid : Int)
    (s0 s1 : Stats) (ps1 : List (Int × Int)) (us1 : List (Int × List String))
    (ss ts : Sheet)
    (hs : env.getSourceSheet = .ok ss)
    (ht : env.getTargetSheet = .ok ts)
    (hrun1 : syncRun env world ss ts smcid tmcid s0 = (s1, ps1, us1))
    (hlist : ∀ m ∈ matchedOf ss ts smcid tmcid, env.listTgtOk m.2.2.id = true)
    (hall : ∀ m ∈ matchedOf ss ts smcid tmcid,
      ∀ a ∈ srcAttsOf env ss ts smcid tmcid m.2.1.id,
        attStep env m.2.2.id true
            (existingNames env world m.2.2.id true
              (some (tgtCacheOf env world ss ts smcid tmcid))) a = .dup
        ∨ attStep env m.2.2.id true
            (existingNames env world m.2.2.id true
              (some (tgtCacheOf env world ss ts smcid tmcid))) a = .copied) :
    (∀ m ∈ matchedOf ss ts smcid tmcid,
      ∀ a ∈ srcAttsOf env ss ts smcid tmcid m.2.1.id,
        a.name ∈ existingNames env (applyUploads world us1) m.2.2.id true
            (some (tgtCacheOf env (applyUploads world us1) ss ts smcid tmcid))
        ∧ attStep env m.2.2.id true
            (existingNames env (applyUploads world us1) m.2.2.id true
              (some (tgtCacheOf env (applyUploads world us1) ss ts smcid tmcid))) a
          = .dup)
    ∧ sync_attachments env (applyUploads world us1) smcid tmcid s1
        = .ok (syncRun env (applyUploads world us1) ss ts smcid tmcid s1)
    ∧ (syncRun env (applyUploads world us1) ss ts smcid tmcid s1).1.attachments_synced
        = s1.attachments_synced
    ∧ (syncRun env (applyUploads world us1) ss ts smcid tmcid s1).1.attachments_skipped
        = s1.attachments_skipped
          + ((matchedOf ss ts smcid tmcid).map
              (fun m => (srcAttsOf env ss ts smcid tmcid m.2.1.id).length)).sum := by
  have hus1 : us1 = ((build_row_map ss.rows smcid).1).filterMap
      (fun kr => (lookupKV ((build_row_map ts.rows tmcid).1) kr.1).map
        (fun tr => (tr.id, copyUpsOf env world (srcCacheOf env ss ts smcid tmcid)
          (tgtCacheOf env world ss ts smcid tmcid) kr.2.id tr.id))) := by
    have h := syncLoop_uploads env world ((build_row_map ts.rows tmcid).1)
      (srcCacheOf env ss ts smcid tmcid) (tgtCacheOf env world ss ts smcid tmcid)
      ((build_row_map ss.rows smcid).1) s0
    rw [syncRun] at hrun1
    have h2 : (syncLoop env world ((build_row_map ts.rows tmcid).1)
        (srcCacheOf env ss ts smcid tmcid) (tgtCacheOf env world ss ts smcid tmcid)
        ((build_row_map ss.rows smcid).1) s0).2.2 = us1 := by rw [hrun1]
    exact h2.symm.trans h
  have hpresent : ∀ m ∈ matchedOf ss ts smcid tmcid,
      ∀ a ∈ srcAttsOf env ss ts smcid tmcid m.2.1.id,
      a.name ∈ ((applyUploads world us1 m.2.2.id).filter
          (fun x => x.attachment_type == "FILE")).map (fun x => x.name) := by
    intro m hm a ha
    have hmid : m.2.2.id ∈ (matchedOf ss ts smcid tmcid).map (fun m => m.2.2.id) :=
      List.mem_map_of_mem _ hm
    rw [applyUploads_names]
    rcases hall m hm a ha with hdup | hcop
    · refine List.mem_append_left _ ?_
      have hmem := (attStep_dup_mem _ _ _ _ _ hdup).2
      rw [tgtCacheOf, existingNames_cached env world m.2.2.id _ hmid (hlist m hm)] at hmem
      exact hmem
    · refine List.mem_append_right _ ?_
      have hname : a.name ∈ copyUpsOf env world (srcCacheOf env ss ts smcid tmcid)
          (tgtCacheOf env world ss ts smcid tmcid) m.2.1.id m.2.2.id := by
        rw [copyUpsOf, copy_attachments_to_row]
        have hne : (lookupKV (srcCacheOf env ss ts smcid tmcid) m.2.1.id).getD []
            ≠ [] := by
          intro hempty
          rw [srcAttsOf, hempty] at ha
          simp at ha
        rw [copyOnList, if_neg hne, copyLoop_spec]
        dsimp only
        rw [copiedNames]
        refine List.mem_map.mpr ⟨a, List.mem_filter.mpr ⟨?_, ?_⟩, rfl⟩
        · rw [srcAttsOf] at ha
          exact ha
        · simp [hcop]
      have hpair : (m.2.2.id, copyUpsOf env world (srcCacheOf env ss ts smcid tmcid)
          (tgtCacheOf env world ss ts smcid tmcid) m.2.1.id m.2.2.id) ∈ us1 := by
        rw [hus1]
        rw [matchedOf, matchedPairs] at hm
        obtain ⟨kr, hkr, hfkr⟩ := List.mem_filterMap.mp hm
        cases hlk : lookupKV ((build_row_map ts.rows tmcid).1) kr.1 with
        | none => rw [hlk] at hfkr; simp at hfkr
        | some tr =>
          rw [hlk] at hfkr
          simp only [Option.map_some'] at hfkr
          have hfkr2 : (kr.1, kr.2, tr) = m := Option.some.inj hfkr
          refine List.mem_filterMap.mpr ⟨kr, hkr, ?_⟩
          rw [hlk]
          simp only [Option.map_some']
          rw [← hfkr2]
      exact mem_uploadedNames _ _ us1 _ hpair hname
  have hex2 : ∀ m ∈ matchedOf ss ts smcid tmcid,
      existingNames env (applyUploads world us1) m.2.2.id true
        (some (tgtCacheOf env (applyUploads world us1) ss ts smcid tmcid))
      = ((applyUploads world us1 m.2.2.id).filter
          (fun x => x.attachment_type == "FILE")).map (fun x => x.name) := by
    intro m hm
    rw [tgtCacheOf]
    exact existingNames_cached env (applyUploads world us1) m.2.2.id _
      (List.mem_map_of_mem _ hm) (hlist m hm)
  have hconc1 : ∀ m ∈ matchedOf ss ts smcid tmcid,
      ∀ a ∈ srcAttsOf env ss ts smcid tmcid m.2.1.id,
        a.name ∈ existingNames env (applyUploads world us1) m.2.2.id true
            (some (tgtCacheOf env (applyUploads world us1) ss ts smcid tmcid))
        ∧ attStep env m.2.2.id true
            (existingNames env (applyUploads world us1) m.2.2.id true
              (some (tgtCacheOf env (applyUploads world us1) ss ts smcid tmcid))) a
          = .dup := by
    intro m hm a ha
    have hmem : a.name ∈ existingNames env (applyUploads world us1) m.2.2.id true
        (some (tgtCacheOf env (applyUploads world us1) ss ts smcid tmcid)) := by
      rw [hex2 m hm]
      exact hpresent m hm a ha
    refine ⟨hmem, ?_⟩
    unfold attStep
    rw [if_pos ⟨rfl, hmem⟩]
  have hdupall : ∀ kr ∈ (build_row_map ss.rows smcid).1, ∀ tr : Row,
      lookupKV ((build_row_map ts.rows tmcid).1) kr.1 = some tr →
      ∀ a ∈ (lookupKV (srcCacheOf env ss ts smcid tmcid) kr.2.id).getD [],
        attStep env tr.id true
          (existingNames env (applyUploads world us1) tr.id true
            (some (tgtCacheOf env (applyUploads world us1) ss ts smcid tmcid))) a
          = .dup := by
    intro kr hkr tr hlk a ha
    have hm : (kr.1, kr.2, tr) ∈ matchedOf ss ts smcid tmcid := by
      rw [matchedOf, matchedPairs]
      refine List.mem_filterMap.mpr ⟨kr, hkr, ?_⟩
      rw [hlk]
      rfl
    exact (hconc1 (kr.1, kr.2, tr) hm a ha).2
  obtain ⟨hsy, hsk⟩ := syncLoop_all_dup env (applyUploads world us1)
    ((build_row_map ts.rows tmcid).1) (srcCacheOf env ss ts smcid tmcid)
    (tgtCacheOf env (applyUploads world us1) ss ts smcid tmcid)
    ((build_row_map ss.rows smcid).1) s1 hdupall
  have hsum : ((build_row_map ss.rows smcid).1.filterMap
      (fun kr => (lookupKV ((build_row_map ts.rows tmcid).1) kr.1).map
        (fun _ => ((lookupKV (srcCacheOf env ss ts smcid tmcid) kr.2.id).getD
            []).length))).sum
      = ((matchedOf ss ts smcid tmcid).map
          (fun m => (srcAttsOf env ss ts smcid tmcid m.2.1.id).length)).sum := by
    rw [matchedOf, matchedPairs, List.map_filterMap]
    have hfe : (fun (x : Int × Row) =>
        Option.map (fun m => (srcAttsOf env ss ts smcid tmcid m.2.1.id).length)
          (Option.map (fun tr => (x.1, x.2, tr))
            (lookupKV ((build_row_map ts.rows tmcid).1) x.1)))
        = (fun (kr : Int × Row) =>
          Option.map
            (fun _ => ((lookupKV (srcCacheOf env ss ts smcid tmcid) kr.2.id).getD
              []).length)
            (lookupKV ((build_row_map ts.rows tmcid).1) kr.1)) := by
      funext kr
      cases h : lookupKV ((build_row_map ts.rows tmcid).1) kr.1 <;>
        simp [h, srcAttsOf]
    rw [hfe]
  refine ⟨hconc1, by simp [sync_attachments, hs, ht], ?_, ?_⟩
  · rw [syncRun]
    exact hsy
  · rw [syncRun]
    rw [hsk, hsum]

/-- Concrete instantiation of `sync_idempotent`: one matched pair whose
single source attachment `f.pdf` the first run copies; the second run,
against the uploaded state, syncs nothing new. -/
theorem sync_idempotent_witness :
    (syncRun
        ⟨.ok ⟨[⟨10, [⟨5, .vInt 1⟩]⟩]⟩, .ok ⟨[⟨20, [⟨7, .vInt 1⟩]⟩]⟩,
         fun _ => some [⟨1, "f.pdf", "FILE"⟩], fun _ => true,
         fun _ => some ⟨some "u", "m"⟩, fun _ _ => true, fun _ _ => true⟩
        (applyUploads (fun _ => []) [(20, ["f.pdf"])])
        ⟨[⟨10, [⟨5, .vInt 1⟩]⟩]⟩ ⟨[⟨20, [⟨7, .vInt 1⟩]⟩]⟩ 5 7
        ⟨1, 1, 0, 1, 0, 0⟩).1.attachments_synced
      = (⟨1, 1, 0, 1, 0, 0⟩ : Stats).attachments_synced :=
  (sync_idempotent
      ⟨.ok ⟨[⟨10, [⟨5, .vInt 1⟩]⟩]⟩, .ok ⟨[⟨20, [⟨7, .vInt 1⟩]⟩]⟩,
       fun _ => some [⟨1, "f.pdf", "FILE"⟩], fun _ => true,
       fun _ => some ⟨some "u", "m"⟩, fun _ _ => true, fun _ _ => true⟩
      (fun _ => []) 5 7 ⟨0, 0, 0, 0, 0, 0⟩ ⟨1, 1, 0, 1, 0, 0⟩
      [(10, 20)] [(20, ["f.pdf"])]
      ⟨[⟨10, [⟨5, .vInt 1⟩]⟩]⟩ ⟨[⟨20, [⟨7, .vInt 1⟩]⟩]⟩
      rfl rfl rfl (by decide) (by decide)).2.2.1

end AttachmentSync
